import Mathlib

/-!
Verification of the PNP (Papaya Network Protocol) client.

Shallow embedding of `src/unnamed/part_000` (the revision of the client the
design document describes: `PNPEncryption` generates its key at construction,
draws a fresh IV per `encrypt` call, and uses the `hex(iv) ++ ":" ++ hex(ct)`
wire payload).  Bytes are modelled as `Nat` values below 256, JS strings as
`List Char`, buffers as `List Nat`.

The AES-256 block permutation reached through `crypto.createCipheriv` is an
external library primitive; it is abstracted as a `BlockCipher` parameter,
with `GoodBlockCipher` recording the facts AES-256 under a fixed key
provides (a length-preserving, byte-valued permutation of 16-byte blocks).
The block mode (CBC chaining, PKCS#7 padding), the hex codec, the lenient
hex decoding of `Buffer.from(s, "hex")` and the UTF-8 codec of
`Buffer.from(s, "utf8")` / `buf.toString("utf8")` are modelled concretely.
For malformed (non-UTF-8) byte sequences the decoder below emits the
replacement character U+FFFD like Node does; the exact grouping of malformed
bytes into replacement characters is approximated (valid sequences decode
exactly, and malformed bytes never decode to ASCII, which is all the
development relies on).
-/

set_option maxRecDepth 4000

/-- Bytes of a buffer: each element is below 256. -/
abbrev ValidBytes (l : List Nat) : Prop := ∀ b ∈ l, b < 256

/-! Lowercase hexadecimal codec (`Buffer.toString("hex")` and the `"hex"`
output encoding of `cipher.update`/`cipher.final`). -/

/-- Lowercase hex digit of a nibble. -/
def hexDigit (n : Nat) : Char :=
  if n < 10 then Char.ofNat (48 + n) else Char.ofNat (87 + n)

/-- The two lowercase hex digits of one byte. -/
def hexByte (b : Nat) : List Char := [hexDigit (b / 16), hexDigit (b % 16)]

/-- Lowercase hex encoding of a buffer. -/
def hexEncode (bs : List Nat) : List Char := (bs.map hexByte).flatten

/-- Numeric value of a hex digit; `Buffer.from(s, "hex")` accepts both cases. -/
def hexVal (c : Char) : Option Nat :=
  if 48 ≤ c.toNat ∧ c.toNat ≤ 57 then some (c.toNat - 48)
  else if 97 ≤ c.toNat ∧ c.toNat ≤ 102 then some (c.toNat - 87)
  else if 65 ≤ c.toNat ∧ c.toNat ≤ 70 then some (c.toNat - 55)
  else none

/-- Node's lenient hex decoding (`Buffer.from(s, "hex")`): byte pairs are
decoded left to right, decoding stops at the first pair that is not two hex
digits, and a trailing lone digit is dropped. -/
def hexDecodeLenient : List Char → List Nat
  | c1 :: c2 :: rest =>
    match hexVal c1, hexVal c2 with
    | some h, some l => (16 * h + l) :: hexDecodeLenient rest
    | _, _ => []
  | _ => []

/-! UTF-8 codec (`Buffer.from(s, "utf8")` and `buf.toString("utf8")`). -/

/-- UTF-8 encoding of one character (its code point is valid by `Char`). -/
def utf8EncodeChar (c : Char) : List Nat :=
  let n := c.toNat
  if n < 0x80 then [n]
  else if n < 0x800 then [0xC0 + n / 64, 0x80 + n % 64]
  else if n < 0x10000 then [0xE0 + n / 4096, 0x80 + n / 64 % 64, 0x80 + n % 64]
  else [0xF0 + n / 262144, 0x80 + n / 4096 % 64, 0x80 + n / 64 % 64, 0x80 + n % 64]

/-- UTF-8 encoding of a string (`Buffer.from(s, "utf8")`). -/
def utf8Encode (s : List Char) : List Nat := (s.map utf8EncodeChar).flatten

/-- UTF-8 continuation byte test. -/
def isCont (b : Nat) : Bool := 0x80 ≤ b && b < 0xC0

/-- Replacement character U+FFFD emitted by `buf.toString("utf8")` for
malformed byte sequences. -/
def replChar : Char := Char.ofNat 0xFFFD

/-- One pass of lenient UTF-8 decoding, fuelled so that the recursion is
structural (each step consumes at least one byte, so fuel equal to the input
length is always enough). -/
def utf8DecodeGo : Nat → List Nat → List Char
  | 0, _ => []
  | _ + 1, [] => []
  | fuel + 1, b1 :: rest =>
    if b1 < 0x80 then Char.ofNat b1 :: utf8DecodeGo fuel rest
    else if 0xC2 ≤ b1 && b1 ≤ 0xDF then
      match rest with
      | b2 :: r =>
        if isCont b2 then
          Char.ofNat ((b1 - 0xC0) * 64 + (b2 - 0x80)) :: utf8DecodeGo fuel r
        else replChar :: utf8DecodeGo fuel rest
      | [] => [replChar]
    else if 0xE0 ≤ b1 && b1 ≤ 0xEF then
      match rest with
      | b2 :: b3 :: r =>
        if isCont b2 && isCont b3 && (decide (b1 ≠ 0xE0) || decide (0xA0 ≤ b2))
            && (decide (b1 ≠ 0xED) || decide (b2 < 0xA0)) then
          Char.ofNat ((b1 - 0xE0) * 4096 + (b2 - 0x80) * 64 + (b3 - 0x80))
            :: utf8DecodeGo fuel r
        else replChar :: utf8DecodeGo fuel rest
      | _ => [replChar]
    else if 0xF0 ≤ b1 && b1 ≤ 0xF4 then
      match rest with
      | b2 :: b3 :: b4 :: r =>
        if isCont b2 && isCont b3 && isCont b4 && (decide (b1 ≠ 0xF0) || decide (0x90 ≤ b2))
            && (decide (b1 ≠ 0xF4) || decide (b2 < 0x90)) then
          Char.ofNat ((b1 - 0xF0) * 262144 + (b2 - 0x80) * 4096 + (b3 - 0x80) * 64
              + (b4 - 0x80)) :: utf8DecodeGo fuel r
        else replChar :: utf8DecodeGo fuel rest
      | _ => [replChar]
    else replChar :: utf8DecodeGo fuel rest

/-- Lenient UTF-8 decoding (`buf.toString("utf8")`): valid sequences decode
exactly; malformed bytes become U+FFFD. -/
def utf8DecodeLenient (l : List Nat) : List Char := utf8DecodeGo l.length l

/-- Lowercase hex digit test (code point between those of "0" and "9", or
between those of "a" and "f"). -/
def isLowerHexDigit (c : Char) : Bool :=
  (decide (48 ≤ c.toNat) && decide (c.toNat ≤ 57))
    || (decide (97 ≤ c.toNat) && decide (c.toNat ≤ 102))

/-! AES-256-CBC with PKCS#7 padding, the mode `crypto.createCipheriv` /
`crypto.createDecipheriv` run for the algorithm string "aes-256-cbc".  The
AES-256 block permutation itself is an external primitive of the crypto
library, abstracted as a `BlockCipher`. -/

/-- Abstract 16-byte block permutation pair (AES-256 encryption and
decryption under one fixed key). -/
structure BlockCipher where
  enc : List Nat → List Nat
  dec : List Nat → List Nat

/-- The facts AES-256 under a fixed key provides: on 16-byte blocks of bytes,
`enc` is length- and byte-range-preserving and `dec` inverts it. -/
structure GoodBlockCipher (bc : BlockCipher) : Prop where
  enc_length : ∀ b : List Nat, b.length = 16 → (bc.enc b).length = 16
  enc_valid : ∀ b : List Nat, b.length = 16 → ValidBytes b → ValidBytes (bc.enc b)
  dec_enc : ∀ b : List Nat, b.length = 16 → bc.dec (bc.enc b) = b

/-- Bytewise xor of two equally long buffers. -/
def xorBytes (a b : List Nat) : List Nat := List.zipWith (fun x y => x ^^^ y) a b

/-- Split a buffer into 16-byte blocks, fuelled so the recursion is
structural (each step consumes at least one byte). -/
def chunks16Go : Nat → List Nat → List (List Nat)
  | _, [] => []
  | 0, _ => []
  | fuel + 1, b :: t => ((b :: t).take 16) :: chunks16Go fuel ((b :: t).drop 16)

/-- Split a buffer into 16-byte blocks (the final block may be short if the
buffer length is not a multiple of 16). -/
def chunks16 (l : List Nat) : List (List Nat) := chunks16Go l.length l

/-- CBC encryption of a block sequence: each plaintext block is xored with
the previous ciphertext block (initially the IV) and passed through the
block cipher. -/
def cbcEncBlocks (bc : BlockCipher) : List Nat → List (List Nat) → List (List Nat)
  | _, [] => []
  | prev, b :: bs => bc.enc (xorBytes b prev) :: cbcEncBlocks bc (bc.enc (xorBytes b prev)) bs

/-- CBC decryption of a block sequence. -/
def cbcDecBlocks (bc : BlockCipher) : List Nat → List (List Nat) → List (List Nat)
  | _, [] => []
  | prev, c :: cs => xorBytes (bc.dec c) prev :: cbcDecBlocks bc c cs

/-- PKCS#7 padding to the 16-byte AES block size: always appends between 1
and 16 copies of the pad length. -/
def pkcs7pad (m : List Nat) : List Nat :=
  m ++ List.replicate (16 - m.length % 16) (16 - m.length % 16)

/-- PKCS#7 unpadding with validation, as OpenSSL's EVP_DecryptFinal performs
it: the last byte must be a pad length between 1 and 16 and all pad bytes
must equal it. -/
def pkcs7unpad (m : List Nat) : Option (List Nat) :=
  match m.getLast? with
  | none => none
  | some p =>
    if 1 ≤ p ∧ p ≤ 16 ∧ p ≤ m.length ∧ (m.drop (m.length - p)).all (fun x => x == p)
    then some (m.take (m.length - p)) else none

/-- AES-256-CBC encryption of a byte message (`cipher.update` plus
`cipher.final`): PKCS#7 pad, then CBC-encrypt the blocks. -/
def aesCbcEncrypt (bc : BlockCipher) (iv m : List Nat) : List Nat :=
  (cbcEncBlocks bc iv (chunks16 (pkcs7pad m))).flatten

/-- AES-256-CBC decryption of a ciphertext (`decipher.update` plus
`decipher.final`): fails (throws, modelled as `none`) when the ciphertext is
empty or not block aligned, or when padding validation fails. -/
def aesCbcDecrypt (bc : BlockCipher) (iv ct : List Nat) : Option (List Nat) :=
  if ct.length ≠ 0 ∧ ct.length % 16 = 0
  then pkcs7unpad ((cbcDecBlocks bc iv (chunks16 ct)).flatten)
  else none

/-! The `PNPEncryption` class of src/unnamed/part_000. -/

/-- JS String.prototype.split on a one-character separator: always returns a
non-empty list of separator-free segments. -/
def splitOnChar (sep : Char) : List Char → List (List Char)
  | [] => [[]]
  | c :: cs =>
    match splitOnChar sep cs with
    | [] => [[]]
    | h :: t => if c = sep then [] :: h :: t else (c :: h) :: t

/-- Array.prototype.join with the ":" separator. -/
def intercalateColon : List (List Char) → List Char
  | [] => []
  | [x] => x
  | x :: y :: t => x ++ ':' :: intercalateColon (y :: t)

/-- The constructor's `crypto.randomBytes(n)` call, with the process
randomness source modelled as an oracle of byte index to value. -/
def randomBytes (n : Nat) (rng : Nat → Nat) : List Nat :=
  (List.range n).map (fun i => rng i % 256)

/-- `PNPEncryption.encrypt` (src/unnamed/part_000 lines 91-97): draw a fresh
16-byte IV (here a parameter, the value `crypto.randomBytes(16)` returned
for this call), CBC-encrypt the UTF-8 bytes of the plaintext under the
instance key, and return the buffer of the string
`hex(iv) ++ ":" ++ hex(ciphertext)`. -/
def PNPEncryption.encrypt (bc : BlockCipher) (iv : List Nat) (data : List Char) : List Nat :=
  utf8Encode (hexEncode iv ++ ':' :: hexEncode (aesCbcEncrypt bc iv (utf8Encode data)))

/-- `PNPEncryption.decrypt` (src/unnamed/part_000 lines 99-106): split the
payload text at ":", hex-decode the first segment as the IV and the joined
remainder as the ciphertext, then AES-256-CBC decrypt.  `none` models a
throw: `crypto.createDecipheriv` rejects an IV that is not 16 bytes, and
`decipher.update`/`decipher.final` reject a misaligned ciphertext or bad
padding. -/
def PNPEncryption.decrypt (bc : BlockCipher) (data : List Nat) : Option (List Char) :=
  match splitOnChar ':' (utf8DecodeLenient data) with
  | [] => none
  | ivText :: rest =>
    let iv := hexDecodeLenient ivText
    let encryptedText := hexDecodeLenient (intercalateColon rest)
    if iv.length = 16 then (aesCbcDecrypt bc iv encryptedText).map utf8DecodeLenient
    else none

/-- The IV segment `textParts.shift()!` of a decrypted payload text. -/
def ivPartOf (s : List Char) : List Char := (splitOnChar ':' s).headD []

/-- The ciphertext segment `textParts.join(":")` of a decrypted payload
text. -/
def ctPartOf (s : List Char) : List Char := intercalateColon ((splitOnChar ':' s).drop 1)

/-! JSON values, `JSON.stringify` of requests, and `JSON.parse`.  Number
values keep their source numerals (the IEEE-754 value semantics of JS
numbers plays no role in the client); object fields are kept in source
order. -/

/-- Parsed JSON documents as `JSON.parse` returns them. -/
inductive Json where
  | null
  | bool (b : Bool)
  | num (lit : List Char)
  | str (s : List Char)
  | arr (elems : List Json)
  | obj (fields : List (List Char × Json))

/-- The character of the opening curly bracket. -/
def lbrace : Char := Char.ofNat 123

/-- The character of the closing curly bracket. -/
def rbrace : Char := Char.ofNat 125

/-- Four hex digits of a 16-bit value, for string escapes. -/
def toHex4 (n : Nat) : List Char :=
  [hexDigit (n / 4096 % 16), hexDigit (n / 256 % 16), hexDigit (n / 16 % 16), hexDigit (n % 16)]

/-- JSON.stringify's escaping of one string character. -/
def jsonEscapeChar (c : Char) : List Char :=
  if c = '"' then ['\\', '"']
  else if c = '\\' then ['\\', '\\']
  else if c.toNat = 8 then ['\\', 'b']
  else if c.toNat = 9 then ['\\', 't']
  else if c.toNat = 10 then ['\\', 'n']
  else if c.toNat = 12 then ['\\', 'f']
  else if c.toNat = 13 then ['\\', 'r']
  else if c.toNat < 32 then '\\' :: 'u' :: toHex4 c.toNat
  else [c]

/-- JSON.stringify of a string value. -/
def jsonQuote (s : List Char) : List Char := '"' :: (s.map jsonEscapeChar).flatten ++ ['"']

/-- The two request methods of the PNP protocol. -/
inductive PNPMethod where
  | get
  | post
  deriving DecidableEq

/-- The method string of a request. -/
def PNPMethod.toChars : PNPMethod → List Char
  | .get => ("get").data
  | .post => ("post").data

/-- A PNP request (interface PNPRequest). -/
structure PNPRequest where
  method : PNPMethod
  path : List Char
  headers : List (List Char × List Char)
  body : List Char

/-- JSON.stringify of the headers record, fields in insertion order. -/
def stringifyHeaders : List (List Char × List Char) → List Char
  | [] => []
  | [(k, v)] => jsonQuote k ++ ':' :: jsonQuote v
  | (k, v) :: p :: t => jsonQuote k ++ ':' :: jsonQuote v ++ ',' :: stringifyHeaders (p :: t)

/-- `JSON.stringify(request)`: canonical field order method, path, headers,
body (the declaration and construction order of the interface). -/
def stringifyRequest (r : PNPRequest) : List Char :=
  lbrace :: (jsonQuote ("method").data ++ ':' :: jsonQuote r.method.toChars
    ++ ',' :: jsonQuote ("path").data ++ ':' :: jsonQuote r.path
    ++ ',' :: jsonQuote ("headers").data ++ ':' :: lbrace :: (stringifyHeaders r.headers
    ++ rbrace :: ',' :: jsonQuote ("body").data ++ ':' :: jsonQuote r.body ++ [rbrace]))

/-- JSON whitespace skipping. -/
def skipWs : List Char → List Char
  | [] => []
  | c :: cs =>
    if c = ' ' ∨ c.toNat = 9 ∨ c.toNat = 10 ∨ c.toNat = 13 then skipWs cs else c :: cs

/-- Four hex digits of a \u escape. -/
def parseHex4 : List Char → Option (Nat × List Char)
  | a :: b :: c :: d :: rest =>
    match hexVal a, hexVal b, hexVal c, hexVal d with
    | some x, some y, some z, some w => some (4096 * x + 256 * y + 16 * z + w, rest)
    | _, _, _, _ => none
  | _ => none

/-- JSON string body after the opening quote, fuelled (fuel covering the
input length is always enough).  Surrogate \u escape pairs combine; an
unpaired surrogate escape is modelled as U+FFFD (a JS string can hold it but
`Char` cannot; no claim depends on it). -/
def parseStringBody : Nat → List Char → Option (List Char × List Char)
  | 0, _ => none
  | _ + 1, [] => none
  | fuel + 1, c :: cs =>
    if c = '"' then some ([], cs)
    else if c = '\\' then
      match cs with
      | [] => none
      | e :: cs2 =>
        if e = '"' then (parseStringBody fuel cs2).map (fun p => ('"' :: p.1, p.2))
        else if e = '\\' then (parseStringBody fuel cs2).map (fun p => ('\\' :: p.1, p.2))
        else if e = '/' then (parseStringBody fuel cs2).map (fun p => ('/' :: p.1, p.2))
        else if e = 'b' then (parseStringBody fuel cs2).map (fun p => (Char.ofNat 8 :: p.1, p.2))
        else if e = 'f' then (parseStringBody fuel cs2).map (fun p => (Char.ofNat 12 :: p.1, p.2))
        else if e = 'n' then (parseStringBody fuel cs2).map (fun p => (Char.ofNat 10 :: p.1, p.2))
        else if e = 'r' then (parseStringBody fuel cs2).map (fun p => (Char.ofNat 13 :: p.1, p.2))
        else if e = 't' then (parseStringBody fuel cs2).map (fun p => (Char.ofNat 9 :: p.1, p.2))
        else if e = 'u' then
          match parseHex4 cs2 with
          | none => none
          | some (n, cs3) =>
            if 0xD800 ≤ n ∧ n ≤ 0xDBFF then
              match cs3 with
              | c1 :: c2 :: cs4 =>
                if c1 = '\\' ∧ c2 = 'u' then
                  match parseHex4 cs4 with
                  | some (m, cs5) =>
                    if 0xDC00 ≤ m ∧ m ≤ 0xDFFF then
                      (parseStringBody fuel cs5).map
                        (fun p => (Char.ofNat (0x10000 + (n - 0xD800) * 1024 + (m - 0xDC00))
                          :: p.1, p.2))
                    else (parseStringBody fuel cs3).map (fun p => (replChar :: p.1, p.2))
                  | none => (parseStringBody fuel cs3).map (fun p => (replChar :: p.1, p.2))
                else (parseStringBody fuel cs3).map (fun p => (replChar :: p.1, p.2))
              | _ => (parseStringBody fuel cs3).map (fun p => (replChar :: p.1, p.2))
            else if 0xDC00 ≤ n ∧ n ≤ 0xDFFF then
              (parseStringBody fuel cs3).map (fun p => (replChar :: p.1, p.2))
            else (parseStringBody fuel cs3).map (fun p => (Char.ofNat n :: p.1, p.2))
        else none
    else if c.toNat < 32 then none
    else (parseStringBody fuel cs).map (fun p => (c :: p.1, p.2))

/-- Longest decimal digit run at the head of the input. -/
def decDigits : List Char → List Char × List Char
  | [] => ([], [])
  | c :: cs =>
    if 48 ≤ c.toNat ∧ c.toNat ≤ 57 then
      ((c :: (decDigits cs).1), (decDigits cs).2)
    else ([], c :: cs)

/-- JSON number literal per the JSON grammar; the numeral is kept as its
characters. -/
def parseNumberLit (s : List Char) : Option (List Char × List Char) :=
  let negPart : List Char × List Char :=
    match s with
    | c :: cs => if c = '-' then ([c], cs) else ([], s)
    | [] => ([], [])
  match negPart.2 with
  | [] => none
  | c :: cs =>
    if c = '0' ∨ (49 ≤ c.toNat ∧ c.toNat ≤ 57) then
      let intPart : List Char × List Char :=
        if c = '0' then ([c], cs)
        else (c :: (decDigits cs).1, (decDigits cs).2)
      let fracPart : Option (List Char × List Char) :=
        match intPart.2 with
        | d :: ds =>
          if d = '.' then
            if (decDigits ds).1 = [] then none else some (d :: (decDigits ds).1, (decDigits ds).2)
          else some ([], intPart.2)
        | [] => some ([], [])
      match fracPart with
      | none => none
      | some fp =>
        let expPart : Option (List Char × List Char) :=
          match fp.2 with
          | e :: es =>
            if e = 'e' ∨ e = 'E' then
              match es with
              | g :: gs =>
                if g = '+' ∨ g = '-' then
                  if (decDigits gs).1 = [] then none
                  else some (e :: g :: (decDigits gs).1, (decDigits gs).2)
                else
                  if (decDigits es).1 = [] then none
                  else some (e :: (decDigits es).1, (decDigits es).2)
              | [] => none
            else some ([], fp.2)
          | [] => some ([], [])
        match expPart with
        | none => none
        | some ep => some (negPart.1 ++ intPart.1 ++ fp.1 ++ ep.1, ep.2)
    else none

mutual

/-- JSON value parser, fuelled (fuel decreases on each nested parse and at
least one character is consumed in between, so fuel beyond the input length
is always enough). -/
def parseValue : Nat → List Char → Option (Json × List Char)
  | 0, _ => none
  | fuel + 1, s =>
    match skipWs s with
    | [] => none
    | c :: cs =>
      if c = '"' then (parseStringBody (cs.length + 1) cs).map (fun p => (Json.str p.1, p.2))
      else if c = lbrace then
        match skipWs cs with
        | d :: ds =>
          if d = rbrace then some (Json.obj [], ds)
          else (parseMembers fuel (d :: ds)).map (fun p => (Json.obj p.1, p.2))
        | [] => none
      else if c = '[' then
        match skipWs cs with
        | d :: ds =>
          if d = ']' then some (Json.arr [], ds)
          else (parseElements fuel (d :: ds)).map (fun p => (Json.arr p.1, p.2))
        | [] => none
      else if c = 't' then
        match cs with
        | 'r' :: 'u' :: 'e' :: rest => some (Json.bool true, rest)
        | _ => none
      else if c = 'f' then
        match cs with
        | 'a' :: 'l' :: 's' :: 'e' :: rest => some (Json.bool false, rest)
        | _ => none
      else if c = 'n' then
        match cs with
        | 'u' :: 'l' :: 'l' :: rest => some (Json.null, rest)
        | _ => none
      else (parseNumberLit (c :: cs)).map (fun p => (Json.num p.1, p.2))

/-- Object member list parser (after the opening bracket, first member not
yet consumed). -/
def parseMembers : Nat → List Char → Option (List (List Char × Json) × List Char)
  | 0, _ => none
  | fuel + 1, s =>
    match skipWs s with
    | c :: cs =>
      if c = '"' then
        match parseStringBody (cs.length + 1) cs with
        | none => none
        | some (key, rest1) =>
          match skipWs rest1 with
          | ':' :: rest2 =>
            match parseValue fuel rest2 with
            | none => none
            | some (v, rest3) =>
              match skipWs rest3 with
              | ',' :: rest4 =>
                (parseMembers fuel rest4).map (fun p => ((key, v) :: p.1, p.2))
              | d :: rest4 =>
                if d = rbrace then some ([(key, v)], rest4) else none
              | [] => none
          | _ => none
      else none
    | [] => none

/-- Array element list parser (after the opening bracket, first element not
yet consumed). -/
def parseElements : Nat → List Char → Option (List Json × List Char)
  | 0, _ => none
  | fuel + 1, s =>
    match parseValue fuel s with
    | none => none
    | some (v, rest) =>
      match skipWs rest with
      | ',' :: rest2 => (parseElements fuel rest2).map (fun p => (v :: p.1, p.2))
      | ']' :: rest2 => some ([v], rest2)
      | _ => none

end

/-- `JSON.parse`: parse one value and require only whitespace after it;
`none` models a thrown SyntaxError. -/
def parseJson (s : List Char) : Option Json :=
  match parseValue (s.length + 1) s with
  | none => none
  | some (j, rest) => if skipWs rest = [] then some j else none

/-! The `PNPConnection` and `PNP` classes of src/unnamed/part_000.  The
socket is modelled by the queue of byte chunks the transport will deliver
(`incoming`) and the log of buffers written to it (`sentLog`). -/

/-- Transport connection state. -/
structure PNPConnection where
  host : List Char
  port : Nat
  incoming : List (List Nat)
  sentLog : List (List Nat)

/-- `PNPConnection.send`: writes the buffer to the socket. -/
def PNPConnection.send (c : PNPConnection) (data : List Nat) : PNPConnection :=
  { c with sentLog := c.sentLog ++ [data] }

/-- `PNPConnection.receive`: resolves with the next data chunk the socket
delivers; with no further chunk the promise never settles (`none`). -/
def PNPConnection.receive (c : PNPConnection) : Option (List Nat × PNPConnection) :=
  match c.incoming with
  | [] => none
  | d :: rest => some (d, { c with incoming := rest })

/-- The spec's error taxonomy for one `sendRequest` call: the decrypt step
throws (DecryptionError) or the JSON.parse step throws (ProtocolError). -/
inductive PNPError where
  | decryptionError
  | protocolError
  deriving DecidableEq

/-- `PNP.sendRequest` (src/unnamed/part_000 lines 122-131): stringify the
request, encrypt it, send it, receive one chunk, decrypt it, JSON.parse the
text.  The returned connection records the transport effects; `none` as the
outcome means the call never settles (no chunk arrives). -/
def PNP.sendRequest (bc : BlockCipher) (iv : List Nat) (conn : PNPConnection)
    (request : PNPRequest) : PNPConnection × Option (Except PNPError Json) :=
  let data := stringifyRequest request
  let encrypted := PNPEncryption.encrypt bc iv data
  let conn1 := conn.send encrypted
  match conn1.receive with
  | none => (conn1, none)
  | some (responseEncrypted, conn2) =>
    match PNPEncryption.decrypt bc responseEncrypted with
    | none => (conn2, some (Except.error PNPError.decryptionError))
    | some responseData =>
      match parseJson responseData with
      | none => (conn2, some (Except.error PNPError.protocolError))
      | some j => (conn2, some (Except.ok j))

/-- Does a parsed JSON document carry a top-level field of the given name? -/
def Json.hasField : Json → List Char → Bool
  | Json.obj fields, k => fields.any (fun p => p.1 == k)
  | _, _ => false

/-! The `PNPEncryption` instance state, for the key lifetime claim.  The
constructor (src/unnamed/part_000 lines 86-89) stores the algorithm name and
32 bytes from `crypto.randomBytes`; both fields are `readonly` and no method
writes them. -/

/-- Fields of a `PNPEncryption` instance. -/
structure PNPEncryptionState where
  algorithm : List Char
  key : List Nat

/-- The `PNPEncryption` constructor: `algorithm = "aes-256-cbc"`,
`key = crypto.randomBytes(32)` — generated here, not passed in. -/
def PNPEncryption.construct (rng : Nat → Nat) : PNPEncryptionState :=
  { algorithm := ("aes-256-cbc").data, key := randomBytes 32 rng }

/-- One method call on a `PNPEncryption` instance. -/
inductive CodecOp where
  | encryptOp (iv : List Nat) (data : List Char)
  | decryptOp (data : List Nat)

/-- Result of one method call, together with the key the call read from the
instance. -/
inductive CodecOut where
  | encOut (payload : List Nat)
  | decOut (res : Option (List Char))

/-- Execute one method call: both methods only read `this.key` (recorded in
the trace) and neither assigns any field. -/
def CodecOp.exec (aes : List Nat → BlockCipher) (st : PNPEncryptionState) :
    CodecOp → PNPEncryptionState × (List Nat × CodecOut)
  | CodecOp.encryptOp iv data =>
    (st, (st.key, CodecOut.encOut (PNPEncryption.encrypt (aes st.key) iv data)))
  | CodecOp.decryptOp data =>
    (st, (st.key, CodecOut.decOut (PNPEncryption.decrypt (aes st.key) data)))

/-- Run a sequence of method calls on an instance, collecting the trace of
keys used and outputs. -/
def runCodec (aes : List Nat → BlockCipher) :
    PNPEncryptionState → List CodecOp → PNPEncryptionState × List (List Nat × CodecOut)
  | st, [] => (st, [])
  | st, op :: ops =>
    let r := op.exec aes st
    let rest := runCodec aes r.1 ops
    (rest.1, r.2 :: rest.2)

/-! The `Status` enum (src/unnamed/part_000 lines 142-214): the closed,
HTTP-aligned vocabulary of response status codes, grouped in the source into
the five HTTP classes. -/

/-- Named status codes, one constructor per enum member. -/
inductive Status where
  | Continue
  | SwitchingProtocols
  | Processing
  | EarlyHints
  | OK
  | Created
  | Accepted
  | NonAuthoritativeInformation
  | NoContent
  | ResetContent
  | PartialContent
  | MultiStatus
  | AlreadyReported
  | IMUsed
  | MultipleChoices
  | MovedPermanently
  | Found
  | SeeOther
  | NotModified
  | UseProxy
  | TemporaryRedirect
  | PermanentRedirect
  | BadRequest
  | Unauthorized
  | PaymentRequired
  | Forbidden
  | NotFound
  | MethodNotAllowed
  | NotAcceptable
  | ProxyAuthenticationRequired
  | RequestTimeout
  | Conflict
  | Gone
  | LengthRequired
  | PreconditionFailed
  | PayloadTooLarge
  | URITooLong
  | UnsupportedMediaType
  | RangeNotSatisfiable
  | ExpectationFailed
  | ImATeapot
  | MisdirectedRequest
  | UnprocessableEntity
  | Locked
  | FailedDependency
  | TooEarly
  | UpgradeRequired
  | PreconditionRequired
  | TooManyRequests
  | RequestHeaderFieldsTooLarge
  | UnavailableForLegalReasons
  | InternalServerError
  | NotImplemented
  | BadGateway
  | ServiceUnavailable
  | GatewayTimeout
  | HTTPVersionNotSupported
  | VariantAlsoNegotiates
  | InsufficientStorage
  | LoopDetected
  | NotExtended
  | NetworkAuthenticationRequired
  deriving DecidableEq, Fintype

/-- The integer value of each enum member. -/
def Status.toNat : Status → Nat
  | Status.Continue => 100
  | Status.SwitchingProtocols => 101
  | Status.Processing => 102
  | Status.EarlyHints => 103
  | Status.OK => 200
  | Status.Created => 201
  | Status.Accepted => 202
  | Status.NonAuthoritativeInformation => 203
  | Status.NoContent => 204
  | Status.ResetContent => 205
  | Status.PartialContent => 206
  | Status.MultiStatus => 207
  | Status.AlreadyReported => 208
  | Status.IMUsed => 226
  | Status.MultipleChoices => 300
  | Status.MovedPermanently => 301
  | Status.Found => 302
  | Status.SeeOther => 303
  | Status.NotModified => 304
  | Status.UseProxy => 305
  | Status.TemporaryRedirect => 307
  | Status.PermanentRedirect => 308
  | Status.BadRequest => 400
  | Status.Unauthorized => 401
  | Status.PaymentRequired => 402
  | Status.Forbidden => 403
  | Status.NotFound => 404
  | Status.MethodNotAllowed => 405
  | Status.NotAcceptable => 406
  | Status.ProxyAuthenticationRequired => 407
  | Status.RequestTimeout => 408
  | Status.Conflict => 409
  | Status.Gone => 410
  | Status.LengthRequired => 411
  | Status.PreconditionFailed => 412
  | Status.PayloadTooLarge => 413
  | Status.URITooLong => 414
  | Status.UnsupportedMediaType => 415
  | Status.RangeNotSatisfiable => 416
  | Status.ExpectationFailed => 417
  | Status.ImATeapot => 418
  | Status.MisdirectedRequest => 421
  | Status.UnprocessableEntity => 422
  | Status.Locked => 423
  | Status.FailedDependency => 424
  | Status.TooEarly => 425
  | Status.UpgradeRequired => 426
  | Status.PreconditionRequired => 428
  | Status.TooManyRequests => 429
  | Status.RequestHeaderFieldsTooLarge => 431
  | Status.UnavailableForLegalReasons => 451
  | Status.InternalServerError => 500
  | Status.NotImplemented => 501
  | Status.BadGateway => 502
  | Status.ServiceUnavailable => 503
  | Status.GatewayTimeout => 504
  | Status.HTTPVersionNotSupported => 505
  | Status.VariantAlsoNegotiates => 506
  | Status.InsufficientStorage => 507
  | Status.LoopDetected => 508
  | Status.NotExtended => 510
  | Status.NetworkAuthenticationRequired => 511

/-- The class under whose comment heading each member is listed in the
source (1 informational, 2 success, 3 redirection, 4 client error, 5 server
error). -/
def Status.group : Status → Nat
  | Status.Continue | Status.SwitchingProtocols | Status.Processing | Status.EarlyHints => 1
  | Status.OK | Status.Created | Status.Accepted | Status.NonAuthoritativeInformation
    | Status.NoContent | Status.ResetContent | Status.PartialContent | Status.MultiStatus
    | Status.AlreadyReported | Status.IMUsed => 2
  | Status.MultipleChoices | Status.MovedPermanently | Status.Found | Status.SeeOther
    | Status.NotModified | Status.UseProxy | Status.TemporaryRedirect
    | Status.PermanentRedirect => 3
  | Status.BadRequest | Status.Unauthorized | Status.PaymentRequired | Status.Forbidden
    | Status.NotFound | Status.MethodNotAllowed | Status.NotAcceptable
    | Status.ProxyAuthenticationRequired | Status.RequestTimeout | Status.Conflict | Status.Gone
    | Status.LengthRequired | Status.PreconditionFailed | Status.PayloadTooLarge
    | Status.URITooLong | Status.UnsupportedMediaType | Status.RangeNotSatisfiable
    | Status.ExpectationFailed | Status.ImATeapot | Status.MisdirectedRequest
    | Status.UnprocessableEntity | Status.Locked | Status.FailedDependency | Status.TooEarly
    | Status.UpgradeRequired | Status.PreconditionRequired | Status.TooManyRequests
    | Status.RequestHeaderFieldsTooLarge | Status.UnavailableForLegalReasons => 4
  | Status.InternalServerError | Status.NotImplemented | Status.BadGateway
    | Status.ServiceUnavailable | Status.GatewayTimeout | Status.HTTPVersionNotSupported
    | Status.VariantAlsoNegotiates | Status.InsufficientStorage | Status.LoopDetected
    | Status.NotExtended | Status.NetworkAuthenticationRequired => 5

/-- Every enum member, in source order. -/
def Status.all : List Status :=
  [Status.Continue, Status.SwitchingProtocols, Status.Processing, Status.EarlyHints, Status.OK,
   Status.Created, Status.Accepted, Status.NonAuthoritativeInformation, Status.NoContent,
   Status.ResetContent, Status.PartialContent, Status.MultiStatus, Status.AlreadyReported,
   Status.IMUsed, Status.MultipleChoices, Status.MovedPermanently, Status.Found,
   Status.SeeOther, Status.NotModified, Status.UseProxy, Status.TemporaryRedirect,
   Status.PermanentRedirect, Status.BadRequest, Status.Unauthorized, Status.PaymentRequired,
   Status.Forbidden, Status.NotFound, Status.MethodNotAllowed, Status.NotAcceptable,
   Status.ProxyAuthenticationRequired, Status.RequestTimeout, Status.Conflict, Status.Gone,
   Status.LengthRequired, Status.PreconditionFailed, Status.PayloadTooLarge, Status.URITooLong,
   Status.UnsupportedMediaType, Status.RangeNotSatisfiable, Status.ExpectationFailed,
   Status.ImATeapot, Status.MisdirectedRequest, Status.UnprocessableEntity, Status.Locked,
   Status.FailedDependency, Status.TooEarly, Status.UpgradeRequired,
   Status.PreconditionRequired, Status.TooManyRequests, Status.RequestHeaderFieldsTooLarge,
   Status.UnavailableForLegalReasons, Status.InternalServerError, Status.NotImplemented,
   Status.BadGateway, Status.ServiceUnavailable, Status.GatewayTimeout,
   Status.HTTPVersionNotSupported, Status.VariantAlsoNegotiates, Status.InsufficientStorage,
   Status.LoopDetected, Status.NotExtended, Status.NetworkAuthenticationRequired]

/-! Fixtures used to instantiate theorems on concrete inputs. -/

/-- Identity block permutation: the simplest instance of
`GoodBlockCipher`. -/
def idCipher : BlockCipher := { enc := fun b => b, dec := fun b => b }

/-- A 16-byte all-zero IV. -/
def iv0 : List Nat := List.replicate 16 0

/-- A second, distinct 16-byte IV. -/
def iv1 : List Nat := List.replicate 16 1

/-! Claim theorems. -/

/-- C4 counterexample payload: a well-formed wire payload with two "z"
characters (non-hexadecimal) appended to the ciphertext half. -/
def badPayload : List Nat := PNPEncryption.encrypt idCipher iv0 [] ++ [122, 122]

/-- Connection fixture whose next delivered chunk is an encrypted empty JSON
object. -/
def connEmptyObj : PNPConnection :=
  { host := ("localhost").data, port := 947
    incoming := [PNPEncryption.encrypt idCipher iv0 [lbrace, rbrace]], sentLog := [] }

/-- Request fixture: get / with no headers and empty body. -/
def reqFixture : PNPRequest :=
  { method := PNPMethod.get, path := ("/").data, headers := [], body := [] }

/-- The fuel of `utf8DecodeGo` is irrelevant as long as it covers the length
of the input. -/
theorem utf8DecodeGo_congr : ∀ (f1 f2 : Nat) (l : List Nat), l.length ≤ f1 → l.length ≤ f2 →
    utf8DecodeGo f1 l = utf8DecodeGo f2 l := by
  intro f1
  induction f1 with
  | zero =>
    intro f2 l h1 _
    have hl : l = [] := List.length_eq_zero.mp (Nat.le_zero.mp h1)
    subst hl
    cases f2 <;> rfl
  | succ f ih =>
    intro f2 l h1 h2
    match f2, l with
    | 0, l =>
      have hl : l = [] := List.length_eq_zero.mp (Nat.le_zero.mp h2)
      subst hl
      rfl
    | g + 1, [] => rfl
    | g + 1, b1 :: rest =>
      have hf : rest.length ≤ f := by
        simp only [List.length_cons] at h1
        omega
      have hg : rest.length ≤ g := by
        simp only [List.length_cons] at h2
        omega
      simp only [utf8DecodeGo]
      repeat' split
      all_goals first
        | rfl
        | (refine congrArg _ (ih _ _ ?_ ?_) <;> simp_all only [List.length_cons] <;> omega)

/-- `Char.ofNat` inverts `Char.toNat` on valid code points below the
surrogate range or above it. -/
theorem toNat_ofNat_of_valid {n : Nat} (hv : n.isValidChar) : (Char.ofNat n).toNat = n := by
  simp [Char.ofNat, hv, Char.toNat, Char.ofNatAux]
  rfl

/-- The code point of a character is valid. -/
theorem char_valid_cases (c : Char) :
    c.toNat < 0xD800 ∨ (0xDFFF < c.toNat ∧ c.toNat < 0x110000) := c.valid

/-- Decoding one UTF-8 encoded character at the head of a byte stream
recovers the character. -/
theorem utf8DecodeGo_encodeChar (c : Char) (t : List Nat) (g : Nat) :
    utf8DecodeGo (g + 1) (utf8EncodeChar c ++ t) = c :: utf8DecodeGo g t := by
  have hvalid := char_valid_cases c
  by_cases h1 : c.toNat < 0x80
  · simp only [utf8EncodeChar, if_pos h1, List.cons_append, List.nil_append, utf8DecodeGo]
    rw [Char.ofNat_toNat]
  · by_cases h2 : c.toNat < 0x800
    · simp only [utf8EncodeChar, if_neg h1, if_pos h2, List.cons_append, List.nil_append,
        utf8DecodeGo]
      rw [if_neg (by simp; omega), if_pos (by simp [isCont]; omega)]
      rw [if_pos (by simp [isCont]; omega)]
      have harith : (0xC0 + c.toNat / 64 - 0xC0) * 64 + (0x80 + c.toNat % 64 - 0x80)
          = c.toNat := by omega
      rw [harith, Char.ofNat_toNat]
    · by_cases h3 : c.toNat < 0x10000
      · simp only [utf8EncodeChar, if_neg h1, if_neg h2, if_pos h3, List.cons_append,
          List.nil_append, utf8DecodeGo]
        rw [if_neg (by simp; omega), if_neg (by simp; omega)]
        rw [if_pos (by simp; omega)]
        rw [if_pos (by simp [isCont]; omega)]
        have harith : (0xE0 + c.toNat / 4096 - 0xE0) * 4096
            + (0x80 + c.toNat / 64 % 64 - 0x80) * 64 + (0x80 + c.toNat % 64 - 0x80)
            = c.toNat := by omega
        rw [harith, Char.ofNat_toNat]
      · simp only [utf8EncodeChar, if_neg h1, if_neg h2, if_neg h3, List.cons_append,
          List.nil_append, utf8DecodeGo]
        rw [if_neg (by simp; omega), if_neg (by simp; omega), if_neg (by simp; omega)]
        rw [if_pos (by simp; omega)]
        rw [if_pos (by simp [isCont]; omega)]
        have harith : (0xF0 + c.toNat / 262144 - 0xF0) * 262144
            + (0x80 + c.toNat / 4096 % 64 - 0x80) * 4096
            + (0x80 + c.toNat / 64 % 64 - 0x80) * 64 + (0x80 + c.toNat % 64 - 0x80)
            = c.toNat := by omega
        rw [harith, Char.ofNat_toNat]

/-- Buffer.from(s, "utf8").toString("utf8") is the identity: decoding an
encoded string recovers it character by character. -/
theorem utf8_roundtrip (s : List Char) : utf8DecodeLenient (utf8Encode s) = s := by
  induction s with
  | nil => rfl
  | cons c t ih =>
    have hk : 1 ≤ (utf8EncodeChar c).length := by
      by_cases h1 : c.toNat < 0x80 <;> by_cases h2 : c.toNat < 0x800 <;>
        by_cases h3 : c.toNat < 0x10000 <;> simp [utf8EncodeChar, h1, h2, h3]
    have henc : utf8Encode (c :: t) = utf8EncodeChar c ++ utf8Encode t := by
      simp [utf8Encode]
    rw [utf8DecodeLenient, henc]
    have hlen : (utf8EncodeChar c ++ utf8Encode t).length
        = (utf8EncodeChar c).length + (utf8Encode t).length := List.length_append _ _
    have hpos : (utf8EncodeChar c ++ utf8Encode t).length
        = ((utf8EncodeChar c).length + (utf8Encode t).length - 1) + 1 := by omega
    rw [hpos, utf8DecodeGo_encodeChar c _ _]
    rw [utf8DecodeGo_congr _ (utf8Encode t).length _ (by omega) (le_refl _)]
    rw [← utf8DecodeLenient, ih]

/-- Code point of a hex digit of a nibble. -/
theorem hexDigit_toNat {n : Nat} (h : n < 16) :
    (hexDigit n).toNat = if n < 10 then 48 + n else 87 + n := by
  by_cases h10 : n < 10
  · simp only [hexDigit, if_pos h10]
    rw [toNat_ofNat_of_valid (Or.inl (by omega))]
  · simp only [hexDigit, if_neg h10]
    rw [toNat_ofNat_of_valid (Or.inl (by omega))]

/-- Hex digits round-trip through `hexVal`. -/
theorem hexVal_hexDigit {n : Nat} (h : n < 16) : hexVal (hexDigit n) = some n := by
  have ht := hexDigit_toNat h
  unfold hexVal
  by_cases h10 : n < 10
  · rw [if_pos h10] at ht
    rw [ht, if_pos (by omega)]
    exact congrArg some (by omega)
  · rw [if_neg h10] at ht
    rw [ht, if_neg (by omega), if_pos (by omega)]
    exact congrArg some (by omega)

/-- Hex digits of nibbles are lowercase hex, ASCII, and never the colon. -/
theorem hexDigit_props {n : Nat} (h : n < 16) :
    isLowerHexDigit (hexDigit n) = true ∧ hexDigit n ≠ ':' ∧ (hexDigit n).toNat < 128 := by
  have ht := hexDigit_toNat h
  by_cases h10 : n < 10
  · rw [if_pos h10] at ht
    refine ⟨?_, ?_, by omega⟩
    · simp only [isLowerHexDigit, Bool.or_eq_true, Bool.and_eq_true, decide_eq_true_eq]
      left
      omega
    · intro heq
      have h58 : (hexDigit n).toNat = 58 := by rw [heq]; decide
      omega
  · rw [if_neg h10] at ht
    refine ⟨?_, ?_, by omega⟩
    · simp only [isLowerHexDigit, Bool.or_eq_true, Bool.and_eq_true, decide_eq_true_eq]
      right
      omega
    · intro heq
      have h58 : (hexDigit n).toNat = 58 := by rw [heq]; decide
      omega

/-- Every character of a hex encoding of bytes is a lowercase hex digit,
ASCII, and not the colon delimiter. -/
theorem hexEncode_char_props {bs : List Nat} (hv : ValidBytes bs) :
    ∀ c ∈ hexEncode bs, isLowerHexDigit c = true ∧ c ≠ ':' ∧ c.toNat < 128 := by
  intro c hc
  simp only [hexEncode, List.mem_flatten, List.mem_map] at hc
  obtain ⟨l, ⟨b, hb, rfl⟩, hcl⟩ := hc
  have hb256 := hv b hb
  simp only [hexByte, List.mem_cons, List.mem_singleton] at hcl
  rcases hcl with rfl | rfl | hfalse
  · exact hexDigit_props (by omega)
  · exact hexDigit_props (by omega)
  · cases hfalse

/-- Length of a hex encoding. -/
theorem hexEncode_length (bs : List Nat) : (hexEncode bs).length = 2 * bs.length := by
  induction bs with
  | nil => rfl
  | cons b t ih =>
    have henc : hexEncode (b :: t) = hexDigit (b / 16) :: hexDigit (b % 16) :: hexEncode t := by
      simp [hexEncode, hexByte]
    rw [henc]
    simp only [List.length_cons, ih]
    omega

/-- Buffer.from(Buffer.from(bs).toString("hex"), "hex") recovers the bytes. -/
theorem hex_roundtrip {bs : List Nat} (hv : ValidBytes bs) :
    hexDecodeLenient (hexEncode bs) = bs := by
  induction bs with
  | nil => rfl
  | cons b t ih =>
    have hb := hv b (by simp)
    have henc : hexEncode (b :: t) = hexDigit (b / 16) :: hexDigit (b % 16) :: hexEncode t := by
      simp [hexEncode, hexByte]
    rw [henc]
    simp only [hexDecodeLenient, hexVal_hexDigit (show b / 16 < 16 by omega),
      hexVal_hexDigit (show b % 16 < 16 by omega)]
    rw [ih (fun x hx => hv x (by simp [hx]))]
    exact congrArg (· :: t) (by omega)

/-- The fuel of `chunks16Go` is irrelevant once it covers the input length. -/
theorem chunks16Go_congr : ∀ (f1 f2 : Nat) (l : List Nat), l.length ≤ f1 → l.length ≤ f2 →
    chunks16Go f1 l = chunks16Go f2 l := by
  intro f1
  induction f1 with
  | zero =>
    intro f2 l h1 _
    have hl : l = [] := List.length_eq_zero.mp (Nat.le_zero.mp h1)
    subst hl
    cases f2 <;> rfl
  | succ f ih =>
    intro f2 l h1 h2
    match f2, l with
    | 0, l =>
      have hl : l = [] := List.length_eq_zero.mp (Nat.le_zero.mp h2)
      subst hl
      rfl
    | g + 1, [] => rfl
    | g + 1, b :: t =>
      simp only [chunks16Go]
      refine congrArg _ (ih g _ ?_ ?_) <;>
        (rw [List.length_drop]; simp only [List.length_cons] at h1 h2 ⊢; omega)

/-- Splitting a buffer that starts with a full 16-byte block peels it off. -/
theorem chunks16_cons16 {b t : List Nat} (hb : b.length = 16) :
    chunks16 (b ++ t) = b :: chunks16 t := by
  match b, hb with
  | x :: b', hb =>
    show chunks16 (x :: (b' ++ t)) = (x :: b') :: chunks16 t
    unfold chunks16
    have hlen : (x :: (b' ++ t)).length = (b' ++ t).length + 1 := rfl
    rw [hlen]
    simp only [chunks16Go]
    have htake : (x :: (b' ++ t)).take 16 = x :: b' := by
      have : (x :: b') ++ t = x :: (b' ++ t) := rfl
      rw [← this, ← hb, List.take_left]
    have hdrop : (x :: (b' ++ t)).drop 16 = t := by
      have : (x :: b') ++ t = x :: (b' ++ t) := rfl
      rw [← this, ← hb, List.drop_left]
    rw [htake, hdrop]
    refine congrArg _ (chunks16Go_congr _ _ t ?_ ?_)
    · simp only [List.length_append] at *
      omega
    · exact le_refl _

/-- Splitting the concatenation of 16-byte blocks recovers the blocks. -/
theorem chunks16_flatten {L : List (List Nat)} (h : ∀ b ∈ L, b.length = 16) :
    chunks16 L.flatten = L := by
  induction L with
  | nil => rfl
  | cons b T ih =>
    rw [List.flatten_cons, chunks16_cons16 (h b (by simp))]
    rw [ih (fun x hx => h x (by simp [hx]))]

/-- Concatenating 16-byte blocks yields a buffer of 16 times their number. -/
theorem flatten_length_16 {L : List (List Nat)} (h : ∀ b ∈ L, b.length = 16) :
    L.flatten.length = 16 * L.length := by
  induction L with
  | nil => rfl
  | cons b T ih =>
    simp only [List.flatten_cons, List.length_append, List.length_cons, h b (by simp)]
    rw [ih (fun x hx => h x (by simp [hx]))]
    ring

/-- A buffer of length a multiple of 16 splits into that many full blocks
whose concatenation restores the buffer. -/
theorem chunks16_spec : ∀ (k : Nat) (l : List Nat), l.length = 16 * k →
    (∀ b ∈ chunks16 l, b.length = 16) ∧ (chunks16 l).length = k
      ∧ (chunks16 l).flatten = l := by
  intro k
  induction k with
  | zero =>
    intro l h
    have hl : l = [] := List.length_eq_zero.mp (by omega)
    subst hl
    exact ⟨by simp [chunks16, chunks16Go], rfl, rfl⟩
  | succ k ih =>
    intro l h
    have h16 : (l.take 16).length = 16 := by
      rw [List.length_take]
      omega
    have hdrop : (l.drop 16).length = 16 * k := by
      rw [List.length_drop]
      omega
    have hstep : chunks16 l = l.take 16 :: chunks16 (l.drop 16) := by
      conv_lhs => rw [← List.take_append_drop 16 l]
      rw [chunks16_cons16 h16]
    obtain ⟨ha, hlen, hf⟩ := ih (l.drop 16) hdrop
    refine ⟨?_, ?_, ?_⟩
    · intro b hb
      rw [hstep] at hb
      rcases List.mem_cons.mp hb with rfl | hb
      · exact h16
      · exact ha b hb
    · rw [hstep]
      simp [hlen]
    · rw [hstep, List.flatten_cons, hf, List.take_append_drop]

/-- Xoring twice with the same buffer is the identity. -/
theorem xorBytes_cancel : ∀ {a b : List Nat}, a.length = b.length →
    xorBytes (xorBytes a b) b = a := by
  intro a
  induction a with
  | nil =>
    intro b h
    cases b
    · rfl
    · simp at h
  | cons x t ih =>
    intro b h
    cases b with
    | nil => simp at h
    | cons y u =>
      simp only [xorBytes, List.zipWith_cons_cons]
      rw [show x ^^^ y ^^^ y = x from Nat.xor_cancel_right y x]
      exact congrArg _ (ih (by simpa using h))

/-- Length of a bytewise xor of equally long buffers. -/
theorem xorBytes_length {a b : List Nat} (h : a.length = b.length) :
    (xorBytes a b).length = a.length := by
  simp [xorBytes, h]

/-- Bytewise xor stays below 256 when both inputs do. -/
theorem xorBytes_valid {a b : List Nat} (ha : ValidBytes a) (hb : ValidBytes b) :
    ValidBytes (xorBytes a b) := by
  intro x hx
  rw [xorBytes, List.mem_iff_get] at hx
  obtain ⟨⟨i, hi⟩, rfl⟩ := hx
  simp only [List.get_eq_getElem, List.getElem_zipWith]
  have hia : i < a.length := by
    simp only [List.length_zipWith] at hi
    omega
  have hib : i < b.length := by
    simp only [List.length_zipWith] at hi
    omega
  have h1 : a[i] < 256 := ha _ (List.getElem_mem hia)
  have h2 : b[i] < 256 := hb _ (List.getElem_mem hib)
  have : a[i] ^^^ b[i] < 2 ^ 8 := Nat.xor_lt_two_pow (by omega) (by omega)
  omega

/-- CBC encryption produces 16-byte byte-valued blocks, one per input
block. -/
theorem cbcEncBlocks_props {bc : BlockCipher} (hbc : GoodBlockCipher bc) :
    ∀ (bs : List (List Nat)) (prev : List Nat), prev.length = 16 → ValidBytes prev →
      (∀ b ∈ bs, b.length = 16 ∧ ValidBytes b) →
      (∀ cb ∈ cbcEncBlocks bc prev bs, cb.length = 16 ∧ ValidBytes cb)
        ∧ (cbcEncBlocks bc prev bs).length = bs.length := by
  intro bs
  induction bs with
  | nil =>
    intro prev _ _ _
    exact ⟨by simp [cbcEncBlocks], rfl⟩
  | cons b t ih =>
    intro prev hp hpv hbs
    obtain ⟨hb16, hbv⟩ := hbs b (by simp)
    have hxlen : (xorBytes b prev).length = 16 := by
      rw [xorBytes_length (by omega)]
      exact hb16
    have hxval : ValidBytes (xorBytes b prev) := xorBytes_valid hbv hpv
    have hclen : (bc.enc (xorBytes b prev)).length = 16 := hbc.enc_length _ hxlen
    have hcval : ValidBytes (bc.enc (xorBytes b prev)) := hbc.enc_valid _ hxlen hxval
    obtain ⟨hrec, hreclen⟩ := ih (bc.enc (xorBytes b prev)) hclen hcval
      (fun x hx => hbs x (by simp [hx]))
    refine ⟨?_, ?_⟩
    · intro cb hcb
      rcases List.mem_cons.mp hcb with rfl | hcb
      · exact ⟨hclen, hcval⟩
      · exact hrec cb hcb
    · simp [cbcEncBlocks, hreclen]

/-- CBC decryption inverts CBC encryption for a good block cipher and equal
IVs. -/
theorem cbcDec_cbcEnc {bc : BlockCipher} (hbc : GoodBlockCipher bc) :
    ∀ (bs : List (List Nat)) (prev : List Nat), prev.length = 16 →
      (∀ b ∈ bs, b.length = 16) →
      cbcDecBlocks bc prev (cbcEncBlocks bc prev bs) = bs := by
  intro bs
  induction bs with
  | nil =>
    intro prev _ _
    rfl
  | cons b t ih =>
    intro prev hp hbs
    have hb16 : b.length = 16 := hbs b (by simp)
    have hxlen : (xorBytes b prev).length = 16 := by
      rw [xorBytes_length (by omega)]
      exact hb16
    simp only [cbcEncBlocks, cbcDecBlocks]
    rw [hbc.dec_enc _ hxlen, xorBytes_cancel (by omega)]
    rw [ih (bc.enc (xorBytes b prev)) (hbc.enc_length _ hxlen)
      (fun x hx => hbs x (by simp [hx]))]

/-- Length of a PKCS#7 padded message: the next multiple of 16, always at
least one block. -/
theorem pkcs7pad_length (m : List Nat) : (pkcs7pad m).length = 16 * (m.length / 16 + 1) := by
  simp only [pkcs7pad, List.length_append, List.length_replicate]
  omega

/-- PKCS#7 padded messages stay byte-valued. -/
theorem pkcs7pad_valid {m : List Nat} (hm : ValidBytes m) : ValidBytes (pkcs7pad m) := by
  intro x hx
  rcases List.mem_append.mp hx with hx | hx
  · exact hm x hx
  · have := (List.mem_replicate.mp hx).2
    omega

/-- PKCS#7 unpadding inverts PKCS#7 padding. -/
theorem pkcs7unpad_pad (m : List Nat) : pkcs7unpad (pkcs7pad m) = some m := by
  have hmod : m.length % 16 < 16 := Nat.mod_lt _ (by omega)
  have hp1 : 1 ≤ 16 - m.length % 16 := by omega
  have hlast : (pkcs7pad m).getLast? = some (16 - m.length % 16) := by
    unfold pkcs7pad
    rw [List.getLast?_append_of_ne_nil _ (by simp; omega)]
    rw [List.getLast?_replicate, if_neg (by omega)]
  have hlen : (pkcs7pad m).length = m.length + (16 - m.length % 16) := by
    simp [pkcs7pad]
  simp only [pkcs7unpad, hlast]
  rw [if_pos]
  · have hq : (pkcs7pad m).length - (16 - m.length % 16) = m.length := by omega
    rw [hq]
    unfold pkcs7pad
    exact congrArg some (List.take_left m _)
  · refine ⟨hp1, by omega, by omega, ?_⟩
    have hq : (pkcs7pad m).length - (16 - m.length % 16) = m.length := by omega
    rw [hq]
    unfold pkcs7pad
    rw [List.drop_left m _]
    simp [List.all_eq_true, List.mem_replicate]

/-- The ciphertext of AES-256-CBC: its length is the padded length, its
bytes are byte-valued. -/
theorem aesCbcEncrypt_props {bc : BlockCipher} (hbc : GoodBlockCipher bc) {iv m : List Nat}
    (hiv : iv.length = 16) (hivv : ValidBytes iv) (hm : ValidBytes m) :
    (aesCbcEncrypt bc iv m).length = 16 * (m.length / 16 + 1)
      ∧ ValidBytes (aesCbcEncrypt bc iv m) := by
  obtain ⟨hblocks, hblen, hflat⟩ := chunks16_spec (m.length / 16 + 1) (pkcs7pad m)
    (pkcs7pad_length m)
  have hbsprops : ∀ b ∈ chunks16 (pkcs7pad m), b.length = 16 ∧ ValidBytes b := by
    intro b hb
    refine ⟨hblocks b hb, ?_⟩
    intro x hx
    have hmem : x ∈ (chunks16 (pkcs7pad m)).flatten := List.mem_flatten.mpr ⟨b, hb, hx⟩
    rw [hflat] at hmem
    exact pkcs7pad_valid hm x hmem
  obtain ⟨hct, hctlen⟩ := cbcEncBlocks_props hbc (chunks16 (pkcs7pad m)) iv hiv hivv hbsprops
  constructor
  · rw [aesCbcEncrypt, flatten_length_16 (fun b hb => (hct b hb).1), hctlen, hblen]
  · intro x hx
    rw [aesCbcEncrypt] at hx
    obtain ⟨b, hb, hxb⟩ := List.mem_flatten.mp hx
    exact (hct b hb).2 x hxb

/-- AES-256-CBC decryption inverts AES-256-CBC encryption under the same key
and IV. -/
theorem aesCbc_roundtrip {bc : BlockCipher} (hbc : GoodBlockCipher bc) {iv m : List Nat}
    (hiv : iv.length = 16) (hivv : ValidBytes iv) (hm : ValidBytes m) :
    aesCbcDecrypt bc iv (aesCbcEncrypt bc iv m) = some m := by
  obtain ⟨hblocks, hblen, hflat⟩ := chunks16_spec (m.length / 16 + 1) (pkcs7pad m)
    (pkcs7pad_length m)
  have hbsprops : ∀ b ∈ chunks16 (pkcs7pad m), b.length = 16 ∧ ValidBytes b := by
    intro b hb
    refine ⟨hblocks b hb, ?_⟩
    intro x hx
    have hmem : x ∈ (chunks16 (pkcs7pad m)).flatten := List.mem_flatten.mpr ⟨b, hb, hx⟩
    rw [hflat] at hmem
    exact pkcs7pad_valid hm x hmem
  obtain ⟨hct, hctlen⟩ := cbcEncBlocks_props hbc (chunks16 (pkcs7pad m)) iv hiv hivv hbsprops
  have hctflatlen : (aesCbcEncrypt bc iv m).length = 16 * (m.length / 16 + 1) :=
    (aesCbcEncrypt_props hbc hiv hivv hm).1
  unfold aesCbcDecrypt
  rw [if_pos (by rw [hctflatlen]; omega)]
  rw [show (aesCbcEncrypt bc iv m) = (cbcEncBlocks bc iv (chunks16 (pkcs7pad m))).flatten
    from rfl]
  rw [chunks16_flatten (fun b hb => (hct b hb).1)]
  rw [cbcDec_cbcEnc hbc _ iv hiv (fun b hb => hblocks b hb)]
  rw [hflat]
  exact pkcs7unpad_pad m

/-- `String.split` never yields an empty list. -/
theorem splitOnChar_ne_nil (sep : Char) (s : List Char) : splitOnChar sep s ≠ [] := by
  cases s with
  | nil => simp [splitOnChar]
  | cons c cs =>
    simp only [splitOnChar]
    cases h : splitOnChar sep cs with
    | nil => simp
    | cons h t =>
      by_cases hc : c = sep <;> simp [hc]

/-- `decrypt` through the head/tail view of the split. -/
theorem decrypt_eq (bc : BlockCipher) (data : List Nat) :
    PNPEncryption.decrypt bc data =
      (if (hexDecodeLenient (ivPartOf (utf8DecodeLenient data))).length = 16
       then (aesCbcDecrypt bc (hexDecodeLenient (ivPartOf (utf8DecodeLenient data)))
          (hexDecodeLenient (ctPartOf (utf8DecodeLenient data)))).map utf8DecodeLenient
       else none) := by
  unfold PNPEncryption.decrypt ivPartOf ctPartOf
  cases h : splitOnChar ':' (utf8DecodeLenient data) with
  | nil => exact absurd h (splitOnChar_ne_nil _ _)
  | cons a t => simp

/-- Joining a split restores the string. -/
theorem intercalateColon_splitOnChar (s : List Char) :
    intercalateColon (splitOnChar ':' s) = s := by
  induction s with
  | nil => rfl
  | cons c cs ih =>
    cases h : splitOnChar ':' cs with
    | nil => exact absurd h (splitOnChar_ne_nil _ _)
    | cons a t =>
      rw [h] at ih
      by_cases hc : c = ':'
      · subst hc
        have hs : splitOnChar ':' (':' :: cs) = [] :: a :: t := by
          simp [splitOnChar, h]
        rw [hs]
        simpa [intercalateColon] using ih
      · have hs : splitOnChar ':' (c :: cs) = (c :: a) :: t := by
          simp [splitOnChar, h, hc]
        rw [hs]
        cases t with
        | nil => simpa [intercalateColon] using ih
        | cons b u =>
          simp only [intercalateColon, List.cons_append] at ih ⊢
          rw [ih]

/-- Splitting a string that is a colon-free segment, a colon, and a tail:
the head is the segment and the joined rest is the tail. -/
theorem splitOnChar_append (s1 s2 : List Char) (h1 : ':' ∉ s1) :
    ivPartOf (s1 ++ ':' :: s2) = s1 ∧ ctPartOf (s1 ++ ':' :: s2) = s2 := by
  induction s1 with
  | nil =>
    cases h : splitOnChar ':' s2 with
    | nil => exact absurd h (splitOnChar_ne_nil _ _)
    | cons a t =>
      have hs : splitOnChar ':' (([] : List Char) ++ ':' :: s2) = [] :: a :: t := by
        simp [splitOnChar, h]
      have hj := intercalateColon_splitOnChar s2
      rw [h] at hj
      simp only [ivPartOf, ctPartOf, hs, List.headD, List.drop_one, List.tail_cons]
      exact ⟨by simp, hj⟩
  | cons c cs ih =>
    have hc : c ≠ ':' := fun hceq => h1 (by simp [hceq])
    have hcs : ':' ∉ cs := fun hm => h1 (by simp [hm])
    obtain ⟨ihh, iht⟩ := ih hcs
    cases h : splitOnChar ':' (cs ++ ':' :: s2) with
    | nil => exact absurd h (splitOnChar_ne_nil _ _)
    | cons a t =>
      have hs : splitOnChar ':' ((c :: cs) ++ ':' :: s2) = (c :: a) :: t := by
        simp [splitOnChar, h, hc]
      simp only [ivPartOf, ctPartOf, h, List.headD, List.drop_one, List.tail_cons] at ihh iht
      simp only [ivPartOf, ctPartOf, hs, List.headD, List.drop_one, List.tail_cons]
      exact ⟨by rw [ihh], iht⟩

/-- A colon-free text splits into a single segment, so the ciphertext part
is empty. -/
theorem splitOnChar_no_colon (s : List Char) (h : ':' ∉ s) :
    splitOnChar ':' s = [s] := by
  induction s with
  | nil => rfl
  | cons c cs ih =>
    have hc : c ≠ ':' := fun hceq => h (by simp [hceq])
    have hcs : ':' ∉ cs := fun hm => h (by simp [hm])
    simp [splitOnChar, ih hcs, hc]

/-- UTF-8 encoded characters consist of bytes. -/
theorem utf8EncodeChar_valid (c : Char) : ValidBytes (utf8EncodeChar c) := by
  intro b hb
  have hv := char_valid_cases c
  by_cases h1 : c.toNat < 0x80
  · simp only [utf8EncodeChar, if_pos h1, List.mem_singleton] at hb
    omega
  · by_cases h2 : c.toNat < 0x800
    · simp only [utf8EncodeChar, if_neg h1, if_pos h2, List.mem_cons, List.not_mem_nil,
        or_false] at hb
      rcases hb with rfl | rfl <;> omega
    · by_cases h3 : c.toNat < 0x10000
      · simp only [utf8EncodeChar, if_neg h1, if_neg h2, if_pos h3, List.mem_cons,
          List.not_mem_nil, or_false] at hb
        rcases hb with rfl | rfl | rfl <;> omega
      · simp only [utf8EncodeChar, if_neg h1, if_neg h2, if_neg h3, List.mem_cons,
          List.not_mem_nil, or_false] at hb
        rcases hb with rfl | rfl | rfl | rfl <;> omega

/-- UTF-8 encoded strings consist of bytes. -/
theorem utf8Encode_valid (s : List Char) : ValidBytes (utf8Encode s) := by
  intro b hb
  simp only [utf8Encode, List.mem_flatten, List.mem_map] at hb
  obtain ⟨l, ⟨c, _, rfl⟩, hbl⟩ := hb
  exact utf8EncodeChar_valid c b hbl

/-- On ASCII strings UTF-8 encoding is just the list of code points. -/
theorem utf8Encode_ascii {s : List Char} (h : ∀ c ∈ s, c.toNat < 128) :
    utf8Encode s = s.map Char.toNat := by
  induction s with
  | nil => rfl
  | cons c t ih =>
    have henc : utf8Encode (c :: t) = utf8EncodeChar c ++ utf8Encode t := by
      simp [utf8Encode]
    rw [henc, ih (fun d hd => h d (by simp [hd]))]
    have hc : utf8EncodeChar c = [c.toNat] := by
      simp only [utf8EncodeChar, if_pos (h c (by simp))]
    rw [hc]
    rfl

/-- The wire payload of `encrypt`, decomposed: the ASCII bytes of the hex IV,
the colon byte 58, and the ASCII bytes of the hex ciphertext. -/
theorem encrypt_decompose (bc : BlockCipher) (hbc : GoodBlockCipher bc) {iv : List Nat}
    (h16 : iv.length = 16) (hv : ValidBytes iv) (x : List Char) :
    PNPEncryption.encrypt bc iv x
      = (hexEncode iv).map Char.toNat
          ++ 58 :: (hexEncode (aesCbcEncrypt bc iv (utf8Encode x))).map Char.toNat := by
  have hctv : ValidBytes (aesCbcEncrypt bc iv (utf8Encode x)) :=
    (aesCbcEncrypt_props hbc h16 hv (utf8Encode_valid x)).2
  have hascii : ∀ c ∈ hexEncode iv ++ ':' :: hexEncode (aesCbcEncrypt bc iv (utf8Encode x)),
      c.toNat < 128 := by
    intro c hc
    rcases List.mem_append.mp hc with hc | hc
    · exact (hexEncode_char_props hv c hc).2.2
    · rcases List.mem_cons.mp hc with rfl | hc
      · decide
      · exact (hexEncode_char_props hctv c hc).2.2
  rw [PNPEncryption.encrypt, utf8Encode_ascii hascii]
  rw [List.map_append, List.map_cons]
  rfl

/-- Decoding the payload text of `encrypt` yields the hex string it was
built from. -/
theorem decrypt_text_of_encrypt (bc : BlockCipher) (iv : List Nat) (x : List Char) :
    utf8DecodeLenient (PNPEncryption.encrypt bc iv x)
      = hexEncode iv ++ ':' :: hexEncode (aesCbcEncrypt bc iv (utf8Encode x)) :=
  utf8_roundtrip _

/-- Full codec round-trip at the byte level. -/
theorem decrypt_encrypt (bc : BlockCipher) (hbc : GoodBlockCipher bc) {iv : List Nat}
    (h16 : iv.length = 16) (hv : ValidBytes iv) (x : List Char) :
    PNPEncryption.decrypt bc (PNPEncryption.encrypt bc iv x) = some x := by
  have hctv : ValidBytes (aesCbcEncrypt bc iv (utf8Encode x)) :=
    (aesCbcEncrypt_props hbc h16 hv (utf8Encode_valid x)).2
  have hnocolon : ':' ∉ hexEncode iv := by
    intro hc
    exact (hexEncode_char_props hv _ hc).2.1 rfl
  obtain ⟨hiv, hct⟩ := splitOnChar_append (hexEncode iv)
    (hexEncode (aesCbcEncrypt bc iv (utf8Encode x))) hnocolon
  rw [decrypt_eq, decrypt_text_of_encrypt, hiv, hct, hex_roundtrip hv, hex_roundtrip hctv]
  rw [if_pos h16, aesCbc_roundtrip hbc h16 hv (utf8Encode_valid x)]
  rw [Option.map]
  exact congrArg some (utf8_roundtrip x)

/-- The identity permutation satisfies the block cipher interface. -/
theorem idCipher_good : GoodBlockCipher idCipher :=
  ⟨fun _ h => h, fun _ _ hv => hv, fun _ _ => rfl⟩

/-- C1: for every UTF-8 string x (including the empty string), decrypt on
the bytes produced by encrypt(x) under the same instance key returns a
string equal to x; in particular this holds for the canonical JSON document
of every Request. -/
theorem decrypt_encrypt_roundtrip (bc : BlockCipher) (hbc : GoodBlockCipher bc)
    (iv : List Nat) (h16 : iv.length = 16) (hv : ValidBytes iv) :
    (∀ x : List Char, PNPEncryption.decrypt bc (PNPEncryption.encrypt bc iv x) = some x)
      ∧ ∀ r : PNPRequest,
          PNPEncryption.decrypt bc (PNPEncryption.encrypt bc iv (stringifyRequest r))
            = some (stringifyRequest r) :=
  ⟨fun x => decrypt_encrypt bc hbc h16 hv x,
   fun r => decrypt_encrypt bc hbc h16 hv (stringifyRequest r)⟩

/-- C1 witness: the round-trip evaluated at the empty string and at "ok". -/
theorem decrypt_encrypt_roundtrip_witness :
    PNPEncryption.decrypt idCipher (PNPEncryption.encrypt idCipher iv0 []) = some []
      ∧ PNPEncryption.decrypt idCipher (PNPEncryption.encrypt idCipher iv0 (("ok").data))
        = some (("ok").data) :=
  ⟨(decrypt_encrypt_roundtrip idCipher idCipher_good iv0 (by decide) (by decide)).1 [],
   (decrypt_encrypt_roundtrip idCipher idCipher_good iv0 (by decide) (by decide)).1
     (("ok").data)⟩

/-- C2: encrypt, called with the fresh 16-byte IV drawn for the call,
returns the bytes of hex(IV) ++ ":" ++ hex(ciphertext) where the ciphertext
is the CBC encryption of the plaintext under the instance key and that IV;
the IV half is 32 hex characters and both halves are lowercase
hexadecimal. -/
theorem encrypt_wire_format (bc : BlockCipher) (hbc : GoodBlockCipher bc) (iv : List Nat)
    (h16 : iv.length = 16) (hv : ValidBytes iv) (x : List Char) :
    PNPEncryption.encrypt bc iv x
        = (hexEncode iv).map Char.toNat
          ++ 58 :: (hexEncode (aesCbcEncrypt bc iv (utf8Encode x))).map Char.toNat
      ∧ (hexEncode iv).length = 32
      ∧ (∀ c ∈ hexEncode iv, isLowerHexDigit c = true)
      ∧ (∀ c ∈ hexEncode (aesCbcEncrypt bc iv (utf8Encode x)), isLowerHexDigit c = true) := by
  have hctv := (aesCbcEncrypt_props hbc h16 hv (utf8Encode_valid x)).2
  refine ⟨encrypt_decompose bc hbc h16 hv x, ?_, ?_, ?_⟩
  · rw [hexEncode_length, h16]
  · exact fun c hc => (hexEncode_char_props hv c hc).1
  · exact fun c hc => (hexEncode_char_props hctv c hc).1

/-- C2 witness: the wire format evaluated at plaintext "a" under the
identity permutation and the zero IV. -/
theorem encrypt_wire_format_witness :
    PNPEncryption.encrypt idCipher iv0 (("a").data)
        = (hexEncode iv0).map Char.toNat
          ++ 58 :: (hexEncode (aesCbcEncrypt idCipher iv0 (utf8Encode (("a").data)))).map
            Char.toNat
      ∧ (hexEncode iv0).length = 32
      ∧ (∀ c ∈ hexEncode iv0, isLowerHexDigit c = true)
      ∧ (∀ c ∈ hexEncode (aesCbcEncrypt idCipher iv0 (utf8Encode (("a").data))),
          isLowerHexDigit c = true) :=
  encrypt_wire_format idCipher idCipher_good iv0 (by decide) (by decide) (("a").data)

/-- C3: two encrypt calls on the same codec with the same plaintext and the
distinct fresh IVs the two calls draw (the spec's invariant: an IV is never
reused across messages) produce distinct wire payloads. -/
theorem encrypt_distinct_iv (bc : BlockCipher) (iv1' iv2' : List Nat)
    (h1 : iv1'.length = 16) (hv1 : ValidBytes iv1') (h2 : iv2'.length = 16)
    (hv2 : ValidBytes iv2') (hne : iv1' ≠ iv2') (x : List Char) :
    PNPEncryption.encrypt bc iv1' x ≠ PNPEncryption.encrypt bc iv2' x := by
  intro heq
  apply hne
  have hdec := congrArg utf8DecodeLenient heq
  rw [decrypt_text_of_encrypt, decrypt_text_of_encrypt] at hdec
  have hno1 : ':' ∉ hexEncode iv1' := fun hc => (hexEncode_char_props hv1 _ hc).2.1 rfl
  have hno2 : ':' ∉ hexEncode iv2' := fun hc => (hexEncode_char_props hv2 _ hc).2.1 rfl
  have hp := congrArg ivPartOf hdec
  rw [(splitOnChar_append _ _ hno1).1, (splitOnChar_append _ _ hno2).1] at hp
  have hdecoded := congrArg hexDecodeLenient hp
  rwa [hex_roundtrip hv1, hex_roundtrip hv2] at hdecoded

/-- C3 witness: distinct zero and one IVs at plaintext "x". -/
theorem encrypt_distinct_iv_witness :
    PNPEncryption.encrypt idCipher iv0 (("x").data)
      ≠ PNPEncryption.encrypt idCipher iv1 (("x").data) :=
  encrypt_distinct_iv idCipher iv0 iv1 (by decide) (by decide) (by decide) (by decide)
    (by decide) (("x").data)

/-- C4 counterexample: `badPayload` has a non-hexadecimal character in its
ciphertext half, yet decrypt succeeds (Buffer.from(s, "hex") silently stops
at the first invalid pair instead of throwing), contradicting the claim
that decrypt raises DecryptionError for every payload with non-hexadecimal
content on either side of the delimiter. -/
theorem decrypt_accepts_non_hex :
    (∃ c ∈ ctPartOf (utf8DecodeLenient badPayload), hexVal c = none)
      ∧ (hexDecodeLenient (ivPartOf (utf8DecodeLenient badPayload))).length = 16
      ∧ PNPEncryption.decrypt idCipher badPayload = some [] := by
  refine ⟨⟨'z', by decide, by decide⟩, by decide, rfl⟩

/-- C4 amended: decrypt hex-decodes both halves leniently (decoding stops at
the first non-hex pair), and fails — with DecryptionError in the spec's
taxonomy, `none` here — exactly when the recovered IV is not 16 bytes, or
the recovered ciphertext is empty or not a multiple of the 16-byte block
size, or PKCS#7 padding validation of the CBC decryption fails. -/
theorem decrypt_failure_characterization (bc : BlockCipher) (data : List Nat) :
    PNPEncryption.decrypt bc data = none ↔
      ((hexDecodeLenient (ivPartOf (utf8DecodeLenient data))).length ≠ 16
        ∨ hexDecodeLenient (ctPartOf (utf8DecodeLenient data)) = []
        ∨ (hexDecodeLenient (ctPartOf (utf8DecodeLenient data))).length % 16 ≠ 0
        ∨ pkcs7unpad ((cbcDecBlocks bc (hexDecodeLenient (ivPartOf (utf8DecodeLenient data)))
            (chunks16 (hexDecodeLenient (ctPartOf (utf8DecodeLenient data))))).flatten)
          = none) := by
  rw [decrypt_eq]
  by_cases h16 : (hexDecodeLenient (ivPartOf (utf8DecodeLenient data))).length = 16
  · rw [if_pos h16]
    unfold aesCbcDecrypt
    by_cases hct : (hexDecodeLenient (ctPartOf (utf8DecodeLenient data))).length ≠ 0
        ∧ (hexDecodeLenient (ctPartOf (utf8DecodeLenient data))).length % 16 = 0
    · rw [if_pos hct]
      constructor
      · intro h
        right
        right
        right
        exact Option.map_eq_none'.mp h
      · intro h
        rcases h with h | h | h | h
        · exact absurd h16 h
        · exact absurd (congrArg List.length h) (by simpa using hct.1)
        · exact absurd hct.2 h
        · rw [h]
          rfl
    · rw [if_neg hct]
      simp only [Option.map_none', true_iff]
      rcases Decidable.not_and_iff_or_not.mp hct with h | h
      · right
        left
        exact List.length_eq_zero.mp (Decidable.not_not.mp h)
      · right
        right
        left
        exact h
  · rw [if_neg h16]
    simp [h16]

/-- C4 amended witness: the characterization evaluated at the empty
payload. -/
theorem decrypt_failure_characterization_witness :
    PNPEncryption.decrypt idCipher [] = none ↔
      ((hexDecodeLenient (ivPartOf (utf8DecodeLenient []))).length ≠ 16
        ∨ hexDecodeLenient (ctPartOf (utf8DecodeLenient [])) = []
        ∨ (hexDecodeLenient (ctPartOf (utf8DecodeLenient []))).length % 16 ≠ 0
        ∨ pkcs7unpad ((cbcDecBlocks idCipher (hexDecodeLenient (ivPartOf (utf8DecodeLenient [])))
            (chunks16 (hexDecodeLenient (ctPartOf (utf8DecodeLenient []))))).flatten)
          = none) :=
  decrypt_failure_characterization idCipher []

/-- C5 counterexample: the received payload decrypts to "\x7b\x7d", valid
JSON with none of the required Response fields (status, headers, body), yet
sendRequest succeeds with the parsed empty object instead of failing with
ProtocolError — the code returns JSON.parse's result without validating any
field. -/
theorem sendRequest_missing_fields_ok :
    (PNP.sendRequest idCipher iv0 connEmptyObj reqFixture).2 = some (Except.ok (Json.obj []))
      ∧ (Json.obj []).hasField (("status").data) = false
      ∧ (Json.obj []).hasField (("headers").data) = false
      ∧ (Json.obj []).hasField (("body").data) = false :=
  ⟨rfl, rfl, rfl, rfl⟩

/-- C5 amended: sendRequest fails with ProtocolError exactly when the
received payload decrypts and the decrypted text is not valid JSON; when
the text parses, the parsed document is returned as the Response without
any validation of the required fields. -/
theorem sendRequest_protocolError_iff (bc : BlockCipher) (iv : List Nat)
    (conn : PNPConnection) (req : PNPRequest) (resp : List Nat) (rest : List (List Nat))
    (hconn : conn.incoming = resp :: rest) :
    ((PNP.sendRequest bc iv conn req).2 = some (Except.error PNPError.protocolError)
        ↔ ∃ t, PNPEncryption.decrypt bc resp = some t ∧ parseJson t = none)
      ∧ ∀ t j, PNPEncryption.decrypt bc resp = some t → parseJson t = some j →
          (PNP.sendRequest bc iv conn req).2 = some (Except.ok j) := by
  have hnone : PNPEncryption.decrypt bc resp = none →
      (PNP.sendRequest bc iv conn req).2 = some (Except.error PNPError.decryptionError) := by
    intro h
    unfold PNP.sendRequest PNPConnection.receive PNPConnection.send
    simp only [hconn, h]
  have hsome : ∀ t, PNPEncryption.decrypt bc resp = some t →
      (PNP.sendRequest bc iv conn req).2
        = match parseJson t with
          | none => some (Except.error PNPError.protocolError)
          | some j => some (Except.ok j) := by
    intro t h
    unfold PNP.sendRequest PNPConnection.receive PNPConnection.send
    simp only [hconn, h]
    cases parseJson t <;> rfl
  cases hdec : PNPEncryption.decrypt bc resp with
  | none =>
    refine ⟨⟨fun h => ?_, ?_⟩, ?_⟩
    · rw [hnone hdec] at h
      simp at h
    · rintro ⟨t, ht, -⟩
      cases ht
    · intro t j ht _
      cases ht
  | some t0 =>
    have h2 := hsome t0 hdec
    cases hp : parseJson t0 with
    | none =>
      rw [hp] at h2
      refine ⟨⟨fun _ => ⟨t0, rfl, hp⟩, fun _ => h2⟩, ?_⟩
      intro t j ht hj
      rw [← Option.some_inj.mp ht] at hj
      rw [hp] at hj
      cases hj
    | some j0 =>
      rw [hp] at h2
      refine ⟨⟨fun h => ?_, ?_⟩, ?_⟩
      · rw [h2] at h
        simp at h
      · rintro ⟨t, ht, hpt⟩
        rw [← Option.some_inj.mp ht] at hpt
        rw [hp] at hpt
        cases hpt
      · intro t j ht hj
        rw [← Option.some_inj.mp ht] at hj
        rw [hp] at hj
        rw [h2, Option.some_inj.mp hj]

/-- C5 amended witness: the characterization at the empty-object fixture. -/
theorem sendRequest_protocolError_iff_witness :
    ((PNP.sendRequest idCipher iv0 connEmptyObj reqFixture).2
        = some (Except.error PNPError.protocolError)
      ↔ ∃ t, PNPEncryption.decrypt idCipher
            (PNPEncryption.encrypt idCipher iv0 [lbrace, rbrace]) = some t
          ∧ parseJson t = none)
      ∧ ∀ t j, PNPEncryption.decrypt idCipher
            (PNPEncryption.encrypt idCipher iv0 [lbrace, rbrace]) = some t →
          parseJson t = some j →
          (PNP.sendRequest idCipher iv0 connEmptyObj reqFixture).2 = some (Except.ok j) :=
  sendRequest_protocolError_iff idCipher iv0 connEmptyObj reqFixture
    (PNPEncryption.encrypt idCipher iv0 [lbrace, rbrace]) [] rfl

/-- C6: sendRequest serializes the request to the canonical JSON document,
encrypts it with the codec, writes exactly that buffer to the socket,
consumes exactly one received chunk, decrypts it with the same codec, and
returns the JSON.parse of the decrypted text (host and port untouched). -/
theorem sendRequest_sequence (bc : BlockCipher) (iv : List Nat) (conn : PNPConnection)
    (req : PNPRequest) (resp : List Nat) (rest : List (List Nat))
    (hconn : conn.incoming = resp :: rest) :
    (PNP.sendRequest bc iv conn req).1.sentLog
        = conn.sentLog ++ [PNPEncryption.encrypt bc iv (stringifyRequest req)]
      ∧ (PNP.sendRequest bc iv conn req).1.incoming = rest
      ∧ (PNP.sendRequest bc iv conn req).1.host = conn.host
      ∧ (PNP.sendRequest bc iv conn req).1.port = conn.port
      ∧ (PNP.sendRequest bc iv conn req).2
          = some (match PNPEncryption.decrypt bc resp with
            | none => Except.error PNPError.decryptionError
            | some t =>
              match parseJson t with
              | none => Except.error PNPError.protocolError
              | some j => Except.ok j) := by
  cases hdec : PNPEncryption.decrypt bc resp with
  | none =>
    unfold PNP.sendRequest PNPConnection.receive PNPConnection.send
    simp only [hconn, hdec]
    and_intros <;> first | rfl | trivial
  | some t0 =>
    cases hp : parseJson t0 with
    | none =>
      unfold PNP.sendRequest PNPConnection.receive PNPConnection.send
      simp only [hconn, hdec, hp]
      and_intros <;> first | rfl | trivial
    | some j0 =>
      unfold PNP.sendRequest PNPConnection.receive PNPConnection.send
      simp only [hconn, hdec, hp]
      and_intros <;> first | rfl | trivial

/-- C6 witness: the sequence at the empty-object fixture. -/
theorem sendRequest_sequence_witness :
    (PNP.sendRequest idCipher iv0 connEmptyObj reqFixture).1.sentLog
        = connEmptyObj.sentLog
          ++ [PNPEncryption.encrypt idCipher iv0 (stringifyRequest reqFixture)]
      ∧ (PNP.sendRequest idCipher iv0 connEmptyObj reqFixture).1.incoming = []
      ∧ (PNP.sendRequest idCipher iv0 connEmptyObj reqFixture).1.host = connEmptyObj.host
      ∧ (PNP.sendRequest idCipher iv0 connEmptyObj reqFixture).1.port = connEmptyObj.port
      ∧ (PNP.sendRequest idCipher iv0 connEmptyObj reqFixture).2
          = some (match PNPEncryption.decrypt idCipher
              (PNPEncryption.encrypt idCipher iv0 [lbrace, rbrace]) with
            | none => Except.error PNPError.decryptionError
            | some t =>
              match parseJson t with
              | none => Except.error PNPError.protocolError
              | some j => Except.ok j) :=
  sendRequest_sequence idCipher iv0 connEmptyObj reqFixture
    (PNPEncryption.encrypt idCipher iv0 [lbrace, rbrace]) [] rfl

/-- Codec instances are immutable: running any method sequence leaves the
state unchanged and every call reads the instance key. -/
theorem runCodec_fixed (aes : List Nat → BlockCipher) :
    ∀ (ops : List CodecOp) (st : PNPEncryptionState),
      (runCodec aes st ops).1 = st
        ∧ ∀ e ∈ (runCodec aes st ops).2, e.1 = st.key := by
  intro ops
  induction ops with
  | nil =>
    intro st
    exact ⟨rfl, by simp [runCodec]⟩
  | cons op t ih =>
    intro st
    have hexec : (op.exec aes st).1 = st ∧ (op.exec aes st).2.1 = st.key := by
      cases op <;> exact ⟨rfl, rfl⟩
    obtain ⟨ih1, ih2⟩ := ih st
    constructor
    · simp only [runCodec, hexec.1]
      exact ih1
    · intro e he
      simp only [runCodec, hexec.1] at he
      rcases List.mem_cons.mp he with rfl | he
      · exact hexec.2
      · exact ih2 e he

/-- C7: the constructor generates a fresh 256-bit (32-byte) key from the
process randomness source - the key is not a constructor argument - and the
instance then uses exactly that key for its whole lifetime: every encrypt
and decrypt call reads it and no method sequence ever changes it. -/
theorem codec_key_lifetime (rng : Nat → Nat) (aes : List Nat → BlockCipher)
    (ops : List CodecOp) :
    (PNPEncryption.construct rng).key = randomBytes 32 rng
      ∧ (PNPEncryption.construct rng).key.length = 32
      ∧ (runCodec aes (PNPEncryption.construct rng) ops).1 = PNPEncryption.construct rng
      ∧ ∀ e ∈ (runCodec aes (PNPEncryption.construct rng) ops).2,
          e.1 = (PNPEncryption.construct rng).key := by
  obtain ⟨h1, h2⟩ := runCodec_fixed aes ops (PNPEncryption.construct rng)
  exact ⟨rfl, by simp [PNPEncryption.construct, randomBytes], h1, h2⟩

/-- C8: all Status values are pairwise distinct named integers in 100..511,
each listed under the comment heading of its own hundreds class (the five
HTTP classes), and NotFound = 404, OK = 200. -/
theorem status_table_integrity :
    (Status.all.map Status.toNat).Nodup
      ∧ (∀ s : Status, s ∈ Status.all)
      ∧ (∀ s : Status, 100 ≤ s.toNat ∧ s.toNat ≤ 511)
      ∧ (∀ s : Status, 1 ≤ s.group ∧ s.group ≤ 5 ∧ s.group = s.toNat / 100)
      ∧ Status.NotFound.toNat = 404 ∧ Status.OK.toNat = 200 := by
  refine ⟨by decide, by decide, by decide, by decide, rfl, rfl⟩

/-- C9: decrypt never succeeds when the part before the first ":" does not
hex-decode to exactly 16 bytes; the empty payload and every payload whose
text has no ":" fail as well (with no delimiter the ciphertext half is
empty, which AES-CBC decryption rejects, whatever the IV half decoded
to). -/
theorem decrypt_iv_guard (bc : BlockCipher) :
    (∀ data : List Nat,
        (hexDecodeLenient (ivPartOf (utf8DecodeLenient data))).length ≠ 16 →
        PNPEncryption.decrypt bc data = none)
      ∧ PNPEncryption.decrypt bc [] = none
      ∧ ∀ data : List Nat, ':' ∉ utf8DecodeLenient data →
          PNPEncryption.decrypt bc data = none := by
  refine ⟨?_, rfl, ?_⟩
  · intro data h
    rw [decrypt_eq, if_neg h]
  · intro data h
    rw [decrypt_eq]
    have hct : ctPartOf (utf8DecodeLenient data) = [] := by
      rw [ctPartOf, splitOnChar_no_colon _ h]
      rfl
    rw [hct]
    split <;> simp [aesCbcDecrypt, show hexDecodeLenient [] = [] from rfl]

/-- C9 witness: the guard evaluated on the bytes of "abc" (IV part decodes
to one byte) and the claim's two distinguished instances. -/
theorem decrypt_iv_guard_witness :
    PNPEncryption.decrypt idCipher (utf8Encode (("abc").data)) = none :=
  (decrypt_iv_guard idCipher).1 _ (by decide)

/-- C10: the wire payload length is a function of the UTF-8 byte length n of
the plaintext alone: exactly 33 + 32 * (n / 16 + 1) bytes; in particular any
two plaintexts of equal byte length yield equal-length payloads, whatever
IVs the two calls drew. -/
theorem encrypt_length_formula (bc : BlockCipher) (hbc : GoodBlockCipher bc) (iv : List Nat)
    (h16 : iv.length = 16) (hv : ValidBytes iv) (x : List Char) :
    (PNPEncryption.encrypt bc iv x).length = 33 + 32 * ((utf8Encode x).length / 16 + 1)
      ∧ ∀ (bc2 : BlockCipher) (iv2 : List Nat) (y : List Char), GoodBlockCipher bc2 →
          iv2.length = 16 → ValidBytes iv2 →
          (utf8Encode y).length = (utf8Encode x).length →
          (PNPEncryption.encrypt bc2 iv2 y).length = (PNPEncryption.encrypt bc iv x).length := by
  have hmain : ∀ (bc' : BlockCipher), GoodBlockCipher bc' → ∀ (iv' : List Nat),
      iv'.length = 16 → ValidBytes iv' → ∀ y : List Char,
      (PNPEncryption.encrypt bc' iv' y).length
        = 33 + 32 * ((utf8Encode y).length / 16 + 1) := by
    intro bc' hbc' iv' h16' hv' y
    rw [encrypt_decompose bc' hbc' h16' hv' y]
    rw [List.length_append, List.length_cons, List.length_map, List.length_map,
      hexEncode_length, hexEncode_length,
      (aesCbcEncrypt_props hbc' h16' hv' (utf8Encode_valid y)).1, h16']
    omega
  refine ⟨hmain bc hbc iv h16 hv x, ?_⟩
  intro bc2 iv2 y hbc2 h162 hv2 hlen
  rw [hmain bc2 hbc2 iv2 h162 hv2 y, hmain bc hbc iv h16 hv x, hlen]

/-- C10 witness: the length formula evaluated at "hello world" under the
identity permutation: 11 bytes of UTF-8 give a 65-byte payload. -/
theorem encrypt_length_formula_witness :
    (PNPEncryption.encrypt idCipher iv0 (("hello world").data)).length
        = 33 + 32 * ((utf8Encode (("hello world").data)).length / 16 + 1)
      ∧ ∀ (bc2 : BlockCipher) (iv2 : List Nat) (y : List Char), GoodBlockCipher bc2 →
          iv2.length = 16 → ValidBytes iv2 →
          (utf8Encode y).length = (utf8Encode (("hello world").data)).length →
          (PNPEncryption.encrypt bc2 iv2 y).length
            = (PNPEncryption.encrypt idCipher iv0 (("hello world").data)).length :=
  encrypt_length_formula idCipher idCipher_good iv0 (by decide) (by decide)
    (("hello world").data)
